import Mathlib

/-!
Shallow embedding of `probtorch/objectives/montecarlo.py`.

The module computes Monte Carlo estimators of variational objectives from
two probabilistic trace objects.  Traces are opaque external collaborators:
they expose lists of conditioned and sampled variable names, set-like
membership over node names, and a joint log-density method.  Tensors are
modelled as rational-valued matrices whose dimension 0 is the sample
dimension (the source hard-codes dimension 0 in `softmax(log_weights, 0)`
and `.sum(0)`), and a Python value that is either a tensor or a plain
`Number` is modelled by the sum type `TVal`.  The external `softmax`
routine is out of scope for the spec, so it is parameterised by an
abstract positive-kernel function `e` standing for pointwise `exp`.
Python expressions that raise (calling `.mean()` on a plain number,
calling `softmax` on `None`) are modelled by `Option` results.
-/

namespace Probtorch

/-- Node names are opaque identifiers. -/
abbrev Name := Nat

/-- A tensor: dimension 0 (samples) indexes the outer list, dimension 1
(batch) the inner lists. -/
structure Tensor where
  data : List (List ℚ)
deriving DecidableEq

namespace Tensor

/-- Pointwise map. -/
def smap (f : ℚ → ℚ) (t : Tensor) : Tensor :=
  ⟨t.data.map (List.map f)⟩

/-- Pointwise binary operation (shapes agree in every use by the source). -/
def map2 (f : ℚ → ℚ → ℚ) (a b : Tensor) : Tensor :=
  ⟨List.zipWith (List.zipWith f) a.data b.data⟩

/-- Sum of all entries. -/
def sumAll (t : Tensor) : ℚ :=
  (t.data.map List.sum).sum

/-- Number of entries, as a rational. -/
def count (t : Tensor) : ℚ :=
  (t.data.map (fun r => (r.length : ℚ))).sum

/-- `t.mean()`: mean over all entries. -/
def mean (t : Tensor) : ℚ :=
  t.sumAll / t.count

/-- `t.sum(0)`: sum along dimension 0, leaving a batch-indexed vector. -/
def sum0 (t : Tensor) : List ℚ :=
  match t.data with
  | [] => []
  | r :: rs => rs.foldl (fun acc row => List.zipWith (fun a b => a + b) acc row) r

end Tensor

/-- Mean of a batch-indexed vector, as produced by `.sum(0).mean()`. -/
def listMean (l : List ℚ) : ℚ :=
  l.sum / (l.length : ℚ)

/-- `softmax(t, 0)` along dimension 0, with the pointwise exponential
abstracted as `e`: entry `(i, j)` becomes `e t[i][j] / Σ_k e t[k][j]`. -/
def softmax0 (e : ℚ → ℚ) (t : Tensor) : Tensor :=
  let denom := (t.smap e).sum0
  ⟨t.data.map (fun row => List.zipWith (fun x d => e x / d) row denom)⟩

/-- A value returned by `Trace.log_joint` or passed as `log_weights`:
either a plain Python `Number` or a tensor. -/
inductive TVal where
  | num (x : ℚ)
  | tensor (t : Tensor)
deriving DecidableEq

namespace TVal

/-- Python `+` with scalar broadcasting. -/
def add : TVal → TVal → TVal
  | num a, num b => num (a + b)
  | num a, tensor t => tensor (t.smap (fun x => a + x))
  | tensor t, num b => tensor (t.smap (fun x => x + b))
  | tensor a, tensor b => tensor (a.map2 (fun x y => x + y) b)

/-- Python `-` with scalar broadcasting. -/
def sub : TVal → TVal → TVal
  | num a, num b => num (a - b)
  | num a, tensor t => tensor (t.smap (fun x => a - x))
  | tensor t, num b => tensor (t.smap (fun x => x - b))
  | tensor a, tensor b => tensor (a.map2 (fun x y => x - y) b)

/-- `v.mean()`: defined on tensors; a plain number has no `mean` attribute,
so the call raises, modelled as `none`. -/
def meanPy : TVal → Option ℚ
  | num _ => none
  | tensor t => some t.mean

end TVal

/-- `weights * v` where `weights` is a tensor: broadcasts over a scalar. -/
def mulT (w : Tensor) (v : TVal) : Tensor :=
  match v with
  | TVal.num a => w.smap (fun x => x * a)
  | TVal.tensor u => w.map2 (fun x y => x * y) u

/-- A probabilistic trace, treated as a read-only external collaborator:
lists of conditioned and sampled node names, node membership (`n in q`),
and the joint log-density method `log_joint(sample_dim, batch_dim, names)`. -/
structure Trace where
  conditioned : List Name
  sampled : List Name
  mem : Name → Bool
  log_joint : Option Int → Option Int → List Name → TVal

/-- `log_like(q, p, sample_dim, batch_dim, log_weights)` from the source:
`x` is the list of names conditioned in `p` that are absent from `q`;
`log_px = p.log_joint(sample_dim, batch_dim, x)`.  With no sample
dimension, return `log_px.mean()`.  Otherwise derive `log_weights` from
`q` when not supplied; a plain-number weight bypasses weighting, and a
tensor weight is softmax-normalised along dimension 0 and the batch mean
of the weighted sample sum is returned. -/
def log_like (e : ℚ → ℚ) (q p : Trace) (sample_dim batch_dim : Option Int)
    (log_weights : Option TVal) : Option ℚ :=
  let x := p.conditioned.filter (fun n => !(q.mem n))
  let log_px := p.log_joint sample_dim batch_dim x
  match sample_dim with
  | none => log_px.meanPy
  | some _ =>
    let lw := match log_weights with
      | none => q.log_joint sample_dim batch_dim q.conditioned
      | some w => w
    match lw with
    | TVal.num _ => log_px.meanPy
    | TVal.tensor t =>
        some (listMean (Tensor.sum0 (mulT (softmax0 e t) log_px)))

/-- `kl(q, p, sample_dim, batch_dim, log_weights)` from the source:
`y = q.conditioned()`, `z = [n for n in q.sampled() if n in p]`,
`log_qy` is the supplied `log_weights` or `q.log_joint(..., y)`, and
`log_qp = log_qy + log_qz - log_py - log_pz`.  With no sample dimension,
return `log_qp.mean()`; with a plain-number `log_weights`, the plain
mean.  Otherwise the source calls `softmax(log_weights, 0)` on the
original argument, which is still `None` when no weights were supplied:
that call raises `TypeError`, modelled as `none`. -/
def kl (e : ℚ → ℚ) (q p : Trace) (sample_dim batch_dim : Option Int)
    (log_weights : Option TVal) : Option ℚ :=
  let y := q.conditioned
  let z := q.sampled.filter (fun n => p.mem n)
  let log_qy := match log_weights with
    | none => q.log_joint sample_dim batch_dim y
    | some w => w
  let log_py := p.log_joint sample_dim batch_dim y
  let log_pz := p.log_joint sample_dim batch_dim z
  let log_qz := q.log_joint sample_dim batch_dim z
  let log_qp := ((log_qy.add log_qz).sub log_py).sub log_pz
  match sample_dim with
  | none => log_qp.meanPy
  | some _ =>
    match log_weights with
    | some (TVal.num _) => log_qp.meanPy
    | some (TVal.tensor t) =>
        some (listMean (Tensor.sum0 (mulT (softmax0 e t) log_qp)))
    | none => none

/-- `ml(q, sample_dim, batch_dim, log_weights)` from the source:
`log_qy` is the supplied `log_weights` or `q.log_joint` over `q`'s
conditioned names; a plain number is returned unchanged, a tensor by its
mean.  Total: never raises. -/
def ml (q : Trace) (sample_dim batch_dim : Option Int)
    (log_weights : Option TVal) : ℚ :=
  let log_qy := match log_weights with
    | none => q.log_joint sample_dim batch_dim q.conditioned
    | some w => w
  match log_qy with
  | TVal.num x => x
  | TVal.tensor t => t.mean

/-- `elbo(q, p, sample_dim, batch_dim, alpha, beta)` from the source:
computes `log_weights` once from `q` and returns
`log_like - beta * kl + (beta + alpha) * ml`, all three calls receiving
the shared weights.  An exception in a subterm propagates (`none`). -/
def elbo (e : ℚ → ℚ) (q p : Trace) (sample_dim batch_dim : Option Int)
    (alpha beta : ℚ) : Option ℚ :=
  let log_weights := q.log_joint sample_dim batch_dim q.conditioned
  match log_like e q p sample_dim batch_dim (some log_weights),
        kl e q p sample_dim batch_dim (some log_weights) with
  | some ll, some klv =>
      some (ll - beta * klv + (beta + alpha) * ml q sample_dim batch_dim (some log_weights))
  | _, _ => none

/-- The unnormalised KL integrand formed by `kl`:
`log_qy + log_qz - log_py - log_pz` with `y = q.conditioned()`,
`z = [n for n in q.sampled() if n in p]`, and the supplied `log_weights`
standing in for `log_qy` when given. -/
def kl_log_qp (q p : Trace) (sample_dim batch_dim : Option Int)
    (log_weights : Option TVal) : TVal :=
  let y := q.conditioned
  let z := q.sampled.filter (fun n => p.mem n)
  let log_qy := match log_weights with
    | none => q.log_joint sample_dim batch_dim y
    | some w => w
  ((log_qy.add (q.log_joint sample_dim batch_dim z)).sub
      (p.log_joint sample_dim batch_dim y)).sub
    (p.log_joint sample_dim batch_dim z)

/-- The reduction `kl` applies to its integrand: plain mean when there is
no sample dimension or the original `log_weights` argument is a plain
number; softmax-weighted batch mean for a tensor weight; and the
raising `softmax(None, 0)` call when no weights were supplied. -/
def kl_reduce (e : ℚ → ℚ) (sample_dim : Option Int) (log_weights : Option TVal)
    (v : TVal) : Option ℚ :=
  match sample_dim with
  | none => v.meanPy
  | some _ =>
    match log_weights with
    | some (TVal.num _) => v.meanPy
    | some (TVal.tensor t) =>
        some (listMean (Tensor.sum0 (mulT (softmax0 e t) v)))
    | none => none

end Probtorch

namespace Probtorch

/-- Constant positive kernel standing in for `exp` in concrete instances;
softmax then yields uniform weights. -/
def eW : ℚ → ℚ := fun _ => 1

/-- A concrete encoder trace: one conditioned node `0`, one sampled node
`1`, joint log-density `|names| + 1` as a 1×1 tensor. -/
def qW : Trace :=
  ⟨[0], [1], fun n => n == 0 || n == 1,
   fun _ _ ns => TVal.tensor ⟨[[(ns.length : ℚ) + 1]]⟩⟩

/-- A concrete decoder trace: conditioned nodes `0` and `2`, sampled node
`1`, joint log-density `2 * |names|` as a 1×1 tensor. -/
def pW : Trace :=
  ⟨[0, 2], [1], fun n => n == 0 || n == 1 || n == 2,
   fun _ _ ns => TVal.tensor ⟨[[2 * (ns.length : ℚ)]]⟩⟩

/-- A concrete encoder trace whose joint log-density is the constant
zero 1×1 tensor; its conditioned and shared sampled names coincide with
those of `pZ`. -/
def qZ : Trace :=
  ⟨[0], [1], fun n => n == 0 || n == 1, fun _ _ _ => TVal.tensor ⟨[[0]]⟩⟩

/-- A concrete decoder trace with the same name sets as `qZ` and constant
zero 1×1 tensor joint log-density. -/
def pZ : Trace :=
  ⟨[0], [1], fun n => n == 0 || n == 1, fun _ _ _ => TVal.tensor ⟨[[0]]⟩⟩

/-- Negating a list elementwise negates its sum. -/
lemma list_sum_neg (l : List ℚ) : (l.map (fun x => -x)).sum = -l.sum := by
  induction l with
  | nil => simp
  | cons a as ih =>
    simp only [List.map_cons, List.sum_cons, ih]
    ring

/-- Row-level sign swap: `(c + d - a) - b` is the elementwise negation of
`(a + b - c) - d`, including under `zipWith` truncation. -/
lemma zip4_neg (a b c d : List ℚ) :
    List.zipWith (fun x y => x - y)
        (List.zipWith (fun x y => x - y) (List.zipWith (fun x y => x + y) c d) a) b
      = List.map (fun x => -x)
          (List.zipWith (fun x y => x - y)
            (List.zipWith (fun x y => x - y) (List.zipWith (fun x y => x + y) a b) c) d) := by
  induction a generalizing b c d with
  | nil => simp
  | cons a as ih =>
    cases b with
    | nil => simp
    | cons b bs =>
      cases c with
      | nil => simp
      | cons c cs =>
        cases d with
        | nil => simp
        | cons d ds =>
          simp only [List.zipWith_cons_cons, List.map_cons, List.cons.injEq]
          exact ⟨by ring, ih bs cs ds⟩

/-- Matrix-level version of `zip4_neg`, row by row. -/
lemma zipzip4_neg (A B C D : List (List ℚ)) :
    List.zipWith (List.zipWith (fun x y => x - y))
        (List.zipWith (List.zipWith (fun x y => x - y))
          (List.zipWith (List.zipWith (fun x y => x + y)) C D) A) B
      = List.map (List.map (fun x => -x))
          (List.zipWith (List.zipWith (fun x y => x - y))
            (List.zipWith (List.zipWith (fun x y => x - y))
              (List.zipWith (List.zipWith (fun x y => x + y)) A B) C) D) := by
  induction A generalizing B C D with
  | nil => simp
  | cons a as ih =>
    cases B with
    | nil => simp
    | cons b bs =>
      cases C with
      | nil => simp
      | cons c cs =>
        cases D with
        | nil => simp
        | cons d ds =>
          simp only [List.zipWith_cons_cons, List.map_cons, List.cons.injEq]
          exact ⟨zip4_neg a b c d, ih bs cs ds⟩

/-- Elementwise negation negates the grand total of a matrix. -/
lemma sumAll_rows_neg (L : List (List ℚ)) :
    ((L.map (List.map (fun x => -x))).map List.sum).sum = -((L.map List.sum).sum) := by
  induction L with
  | nil => simp
  | cons r rs ih =>
    simp only [List.map_cons, List.sum_cons, list_sum_neg, ih]
    ring

/-- Elementwise negation preserves the entry count of a matrix. -/
lemma count_rows_neg (L : List (List ℚ)) :
    ((L.map (List.map (fun x => -x))).map (fun r => ((r.length : ℚ)))).sum
      = (L.map (fun r => ((r.length : ℚ)))).sum := by
  simp [List.map_map, Function.comp_def]

/-- Elementwise negation negates a tensor's mean. -/
lemma mean_smap_neg (t : Tensor) : (t.smap (fun x => -x)).mean = -t.mean := by
  unfold Tensor.mean Tensor.smap Tensor.sumAll Tensor.count
  rw [show (Tensor.mk (t.data.map (List.map (fun x => -x)))).data
        = t.data.map (List.map (fun x => -x)) from rfl]
  rw [sumAll_rows_neg, count_rows_neg, neg_div]

/-- Claim C1: for every pair of traces, every pair of dimension
arguments and all coefficients, `elbo` equals
`log_like - beta * kl + (beta + alpha) * ml`, each subterm receiving the
shared log-weights `q.log_joint(sample_dim, batch_dim, q.conditioned())`
(stated under the hypothesis that the `log_like` and `kl` subterms
evaluate without raising). -/
theorem elbo_decomposes (e : ℚ → ℚ) (q p : Trace) (sd bd : Option Int)
    (alpha beta ll klv : ℚ)
    (hll : log_like e q p sd bd (some (q.log_joint sd bd q.conditioned)) = some ll)
    (hkl : kl e q p sd bd (some (q.log_joint sd bd q.conditioned)) = some klv) :
    elbo e q p sd bd alpha beta =
      some (ll - beta * klv +
        (beta + alpha) * ml q sd bd (some (q.log_joint sd bd q.conditioned))) := by
  simp only [elbo]
  rw [hll, hkl]

/-- Witness for C1 at concrete traces with zero log-densities. -/
theorem elbo_decomposes_witness :
    elbo eW qZ pZ none none (1/10) 1 =
      some (0 - 1 * 0 +
        (1 + 1/10) * ml qZ none none (some (qZ.log_joint none none qZ.conditioned))) :=
  elbo_decomposes eW qZ pZ none none (1/10) 1 0 0
    (by simp [log_like, qZ, pZ, TVal.meanPy, Tensor.mean, Tensor.sumAll, Tensor.count])
    (by simp [kl, qZ, pZ, TVal.meanPy, TVal.add, TVal.sub, Tensor.map2, Tensor.mean,
      Tensor.sumAll, Tensor.count])

/-- Claim C2 (code bug): with a sample dimension given and no supplied
log-weights, `kl` does not softmax the internally derived weights as
`log_like` does; it passes the still-absent `log_weights` to `softmax`,
which raises.  At the same input, `log_like` succeeds. -/
theorem kl_crashes_without_weights :
    kl eW qW pW (some 0) none none = none ∧
      log_like eW qW pW (some 0) none none = some 2 :=
  ⟨rfl, by
    norm_num [log_like, qW, pW, softmax0, mulT, Tensor.smap, Tensor.map2, Tensor.sum0,
      eW, listMean, Tensor.mean, Tensor.sumAll, Tensor.count]⟩

/-- Counterexample to claim C3 as stated: with `sample_dim = None` but a
caller-supplied scalar `log_weights`, `kl` returns the mean of an
integrand built from the supplied weights, not the mean of
`log q(y) + log q(z) - log p(y) - log p(z)`. -/
theorem kl_plain_mean_claim_fails :
    ¬ (kl eW qW pW none none (some (TVal.num 100)) =
        TVal.meanPy (kl_log_qp qW pW none none none)) := by
  norm_num [kl, kl_log_qp, qW, pW, TVal.meanPy, TVal.add, TVal.sub, Tensor.map2,
    Tensor.smap, Tensor.mean, Tensor.sumAll, Tensor.count]

/-- Claim C3 (amended: `log_weights` not supplied): with no sample
dimension, `log_like` returns the plain mean of `log p(x)`, `kl` the
plain mean of the integrand `log q(y) + log q(z) - log p(y) - log p(z)`,
and `ml` the mean of `log q(y)` (the value itself when it is a plain
number); no softmax weighting is applied. -/
theorem plain_mean_without_sampledim (e : ℚ → ℚ) (q p : Trace) (bd : Option Int) :
    log_like e q p none bd none =
        TVal.meanPy (p.log_joint none bd (p.conditioned.filter (fun n => !(q.mem n)))) ∧
      kl e q p none bd none = TVal.meanPy (kl_log_qp q p none bd none) ∧
      ml q none bd none =
        (match q.log_joint none bd q.conditioned with
         | TVal.num x => x
         | TVal.tensor t => t.mean) :=
  ⟨rfl, rfl, rfl⟩

/-- Claim C4: with a sample dimension given and a plain numeric scalar
as `log_weights`, `log_like` and `kl` bypass softmax weighting and
return the plain mean of their respective log-density terms. -/
theorem scalar_weights_bypass_softmax (e : ℚ → ℚ) (q p : Trace) (d : Int)
    (bd : Option Int) (c : ℚ) :
    log_like e q p (some d) bd (some (TVal.num c)) =
        TVal.meanPy (p.log_joint (some d) bd (p.conditioned.filter (fun n => !(q.mem n)))) ∧
      kl e q p (some d) bd (some (TVal.num c)) =
        TVal.meanPy (kl_log_qp q p (some d) bd (some (TVal.num c))) :=
  ⟨rfl, rfl⟩

/-- Claim C5: with a sample dimension given and non-scalar (tensor)
log-weights, `log_like` computes `log p(x)` over the names conditioned
in `p` and absent from `q`, softmax-normalises the log-weights along
dimension 0, and returns the batch mean of the sample sum of the
weights times `log p(x)`. -/
theorem log_like_softmax_weighted_mean (e : ℚ → ℚ) (q p : Trace) (d : Int)
    (bd : Option Int) (t : Tensor) :
    log_like e q p (some d) bd (some (TVal.tensor t)) =
      some (listMean (Tensor.sum0 (mulT (softmax0 e t)
        (p.log_joint (some d) bd (p.conditioned.filter (fun n => !(q.mem n))))))) :=
  rfl

/-- Claim C6: `kl` is the shared reduction applied to the integrand
`log_qy + log_qz - log_py - log_pz`, where `y` is `q`'s conditioned
list, `z` the names sampled in `q` that appear in `p`, and the supplied
`log_weights` stands in for `log q(y)` when given. -/
theorem kl_integrand_composition (e : ℚ → ℚ) (q p : Trace) (sd bd : Option Int)
    (lw : Option TVal) :
    kl e q p sd bd lw = kl_reduce e sd lw (kl_log_qp q p sd bd lw) := by
  cases sd with
  | none => rfl
  | some d =>
    cases lw with
    | none => rfl
    | some w =>
      cases w with
      | num x => rfl
      | tensor t => rfl

/-- Claim C7: `ml` returns the supplied `log_weights` (or `q`'s joint
log-density over its conditioned names) unchanged when it is a plain
number and its mean otherwise, and its result never depends on
`sample_dim` beyond the `log_joint` call: no softmax is applied. -/
theorem ml_no_importance_weighting (q : Trace) (sd bd : Option Int) (lw : Option TVal) :
    ml q sd bd lw =
        (match (match lw with
                | none => q.log_joint sd bd q.conditioned
                | some w => w) with
         | TVal.num x => x
         | TVal.tensor t => t.mean) ∧
      ∀ (sd2 : Option Int) (w : TVal), ml q sd bd (some w) = ml q sd2 bd (some w) :=
  ⟨rfl, fun _ _ => rfl⟩

/-- Counterexample to claim C8 as stated: swapping the roles of `p` and
`q` changes the variable sets `y` and `z`, so `kl(p, q, ...)` is not the
negation of `kl(q, p, ...)` in general. -/
theorem kl_swap_sign_fails :
    ¬ (kl eW pW qW none none none = (kl eW qW pW none none none).map (fun r => -r)) := by
  norm_num [kl, qW, pW, TVal.meanPy, TVal.add, TVal.sub, Tensor.map2, Tensor.smap,
    Tensor.mean, Tensor.sumAll, Tensor.count]

/-- Claim C8 (amended): when no `log_weights` are supplied, `p` and `q`
have the same conditioned list and the same shared sampled list, and the
four joint log-densities involved are tensors, swapping the roles of
`p` and `q` negates the result of `kl`. -/
theorem kl_swap_negates (e : ℚ → ℚ) (q p : Trace) (sd bd : Option Int)
    (ta tb tc td : Tensor)
    (hy : p.conditioned = q.conditioned)
    (hz : p.sampled.filter (fun n => q.mem n) = q.sampled.filter (fun n => p.mem n))
    (ha : q.log_joint sd bd q.conditioned = TVal.tensor ta)
    (hb : q.log_joint sd bd (q.sampled.filter (fun n => p.mem n)) = TVal.tensor tb)
    (hc : p.log_joint sd bd q.conditioned = TVal.tensor tc)
    (hd : p.log_joint sd bd (q.sampled.filter (fun n => p.mem n)) = TVal.tensor td) :
    kl e p q sd bd none = (kl e q p sd bd none).map (fun r => -r) := by
  cases sd with
  | some d => rfl
  | none =>
    show TVal.meanPy ((((p.log_joint none bd p.conditioned).add
          (p.log_joint none bd (p.sampled.filter (fun n => q.mem n)))).sub
          (q.log_joint none bd p.conditioned)).sub
          (q.log_joint none bd (p.sampled.filter (fun n => q.mem n))))
        = (TVal.meanPy ((((q.log_joint none bd q.conditioned).add
            (q.log_joint none bd (q.sampled.filter (fun n => p.mem n)))).sub
            (p.log_joint none bd q.conditioned)).sub
            (p.log_joint none bd (q.sampled.filter (fun n => p.mem n))))).map (fun r => -r)
    rw [hy, hz, ha, hb, hc, hd]
    simp only [TVal.add, TVal.sub, TVal.meanPy, Option.map_some']
    have key : Tensor.map2 (fun x y => x - y)
          (Tensor.map2 (fun x y => x - y) (Tensor.map2 (fun x y => x + y) tc td) ta) tb
        = Tensor.smap (fun x => -x)
            (Tensor.map2 (fun x y => x - y)
              (Tensor.map2 (fun x y => x - y) (Tensor.map2 (fun x y => x + y) ta tb) tc) td) :=
      congrArg Tensor.mk (zipzip4_neg ta.data tb.data tc.data td.data)
    rw [key, mean_smap_neg]

/-- Witness for the amended C8 at concrete symmetric traces. -/
theorem kl_swap_negates_witness :
    kl eW pZ qZ none none none = (kl eW qZ pZ none none none).map (fun r => -r) :=
  kl_swap_negates eW qZ pZ none none ⟨[[0]]⟩ ⟨[[0]]⟩ ⟨[[0]]⟩ ⟨[[0]]⟩
    rfl rfl rfl rfl rfl rfl

/-- Claim C9: `elbo` always hands the log-weights it derives from `q` to
its subcalls, so there is a weight value `w` with every subcall
receiving `some w` — never an absent weight — while `kl` with a sample
dimension and absent weights is exactly the raising branch. -/
theorem elbo_shared_weights_never_absent (e : ℚ → ℚ) (q p : Trace)
    (sd bd : Option Int) (alpha beta : ℚ) :
    (∃ w : TVal, elbo e q p sd bd alpha beta =
        (match log_like e q p sd bd (some w), kl e q p sd bd (some w) with
         | some ll, some klv =>
             some (ll - beta * klv + (beta + alpha) * ml q sd bd (some w))
         | _, _ => none)) ∧
      ∀ d : Int, kl e q p (some d) bd none = none :=
  ⟨⟨q.log_joint sd bd q.conditioned, rfl⟩, fun _ => rfl⟩

/-- Claim C10: with no sample dimension, `log_like` never inspects the
`log_weights` argument, so its output is identical for any two weight
arguments. -/
theorem log_like_independent_of_weights (e : ℚ → ℚ) (q p : Trace) (bd : Option Int)
    (w1 w2 : Option TVal) :
    log_like e q p none bd w1 = log_like e q p none bd w2 :=
  rfl

end Probtorch
